import Mathlib

/-!
Verification of the knowledge-engine frontend (React/TypeScript) against its
specification.  The definitions below are shallow embeddings of the code in
src/frontend/src: types.ts, api.ts, pages/Graph.tsx and pages/Chat.tsx.
The backend GraphStore is not part of the repository snapshot; its
createEdge operation is modelled from the specification (see the section
on the graph store below).

Conventions: TypeScript numbers holding node ids are modelled as Nat,
`string` as String, optional fields as Option.  JavaScript string
truthiness (null or the empty string is falsy) is modelled explicitly at
each use site.
-/

/-- types.ts: NodeStatus enumeration. -/
inductive NodeStatus where
  | PASSED
  | FAILED
  | IN_PROGRESS
  | NOT_REACHED
  | DISABLED
deriving DecidableEq, Repr

/-- types.ts: NodeLevel enumeration. -/
inductive NodeLevel where
  | A1
  | A2
  | A3
deriving DecidableEq, Repr

/-- types.ts: the Node interface, the node representation the frontend
exchanges with the backend over the boundary.  Fields as declared at
types.ts lines 15 to 24: question and criteria are the only optional
fields; there is no score field. -/
structure Node where
  id : Nat
  name : String
  status : NodeStatus
  level : NodeLevel
  child_nodes : List Nat
  parent_nodes : List Nat
  question : Option String
  criteria : Option String
deriving DecidableEq, Repr

/-- The field list of the Node interface of types.ts, in declaration
order, paired with whether the field is required (true) or optional
(false, declared with a question mark). -/
def nodeInterfaceFields : List (String × Bool) :=
  [("id", true), ("name", true), ("status", true), ("level", true),
   ("child_nodes", true), ("parent_nodes", true),
   ("question", false), ("criteria", false)]

/-- The field list of the declared result type of api.sendAnswer
(api.ts: Promise of a record with question required, session_id and
completed optional; no score field). -/
def sendAnswerResultFields : List (String × Bool) :=
  [("question", true), ("session_id", false), ("completed", false)]

/-- The field list of the declared result type of api.startChat
(api.ts: Promise of a record with question required and session_id
optional). -/
def startChatResultFields : List (String × Bool) :=
  [("question", true), ("session_id", false)]

/-- The runtime JSON record a chat-answer response parses to.  Each field
is an Option so that a response object lacking a field can be expressed;
the declared optionality of the TypeScript type is recorded separately in
sendAnswerResultFields. -/
structure SendAnswerResponse where
  question : Option String
  session_id : Option String
  completed : Option Bool
deriving DecidableEq, Repr

/-- The runtime record of a chat-start response (api.ts startChat). -/
structure StartChatResponse where
  question : String
  session_id : Option String
deriving DecidableEq, Repr

/-- JavaScript String.prototype.trim: strip leading and trailing
whitespace.  Implemented over the character list so that it reduces
inside the kernel. -/
def jsTrim (s : String) : String :=
  (((s.data.dropWhile Char.isWhitespace).reverse.dropWhile Char.isWhitespace).reverse).asString

/-- JavaScript String.prototype.toLowerCase (character-wise lowering). -/
def jsToLower (s : String) : String :=
  (s.data.map Char.toLower).asString

/-- Substring test, modelling JavaScript String.prototype.includes. -/
def strContainsSub (s pat : String) : Bool :=
  decide (pat.data <:+: s.data)

/-- The outcome of Chat.tsx handleSend once the HTTP response has
arrived: either the error path (the thrown Invalid-response error, caught
and shown as a failure message) or the success path showing the next
question, recording whether the interview stays active and which session
id (if any) gets stored. -/
inductive SendOutcome where
  | errorOut
  | shown (question : String) (interviewActive : Bool) (sessionUpdate : Option String)
deriving DecidableEq, Repr

/-- Chat.tsx handleSend, response-processing part (lines 2296 to 2314 of
the bundled sources): a response that is null or whose question is absent
or empty (falsy) throws Invalid response from server; otherwise the
question is shown, the session id is stored when truthy, and the
interview is deactivated when completed is truthy or the question text
contains a completion phrase. -/
def handleSend (resp : Option SendAnswerResponse) : SendOutcome :=
  match resp with
  | none => SendOutcome.errorOut
  | some r =>
    match r.question with
    | none => SendOutcome.errorOut
    | some q =>
      if q = "" then SendOutcome.errorOut
      else
        let finished := r.completed.getD false
          || strContainsSub (jsToLower q) "interview complete"
          || strContainsSub (jsToLower q) "interview finished"
        SendOutcome.shown q (!finished)
          (match r.session_id with
           | some sid => if sid = "" then none else some sid
           | none => none)

/-- The outcome of Chat.tsx handleStart: the level selector guards the
call (no level selected means no request), otherwise the interview starts
with the returned question and the session id is stored when present. -/
inductive StartOutcome where
  | needLevel
  | started (sessionId : Option String) (firstQuestion : String)
deriving DecidableEq, Repr

/-- Chat.tsx handleStart: requires a selected level before calling
api.startChat(level); stores response.session_id only when truthy and
shows response.question. -/
def handleStart (selectedLevel : Option NodeLevel) (r : StartChatResponse) : StartOutcome :=
  match selectedLevel with
  | none => StartOutcome.needLevel
  | some _ =>
    StartOutcome.started
      (match r.session_id with
       | some sid => if sid = "" then none else some sid
       | none => none)
      r.question

/-- Graph.tsx: the newNodeData dialog state (name, level, question,
criteria), shared by the create and edit dialogs. -/
structure NewNodeData where
  name : String
  level : NodeLevel
  question : String
  criteria : String
deriving DecidableEq, Repr

/-- The idiom value.trim() or undefined of Graph.tsx: a blank string is
sent as an absent field, a non-blank one is sent trimmed. -/
def jsTrimOrNone (s : String) : Option String :=
  let t := jsTrim s
  if t = "" then none else some t

/-- Graph.tsx: the node-data record convertToReactFlowNodes builds for the
custom React Flow node. -/
structure RFNodeData where
  label : String
  status : NodeStatus
  level : NodeLevel
  nodeId : Nat
  disabled : Bool
deriving DecidableEq, Repr

/-- Graph.tsx: a displayed React Flow node; its id is the backend node id
rendered as a string (backendNode.id.toString()). -/
structure RFNode where
  id : String
  data : RFNodeData
deriving DecidableEq, Repr

/-- JavaScript parseInt on the decimal-numeral strings the graph page
uses as React Flow node ids (they are produced by Number.prototype
.toString on backend ids).  Off that domain parseInt yields NaN; the
model returns 0 there, and every theorem that depends on parsed ids
carries the hypothesis that the ids parse. -/
def jsParseInt (s : String) : Nat :=
  let digits := s.data.takeWhile Char.isDigit
  if digits = [] then 0
  else digits.foldl (fun n c => n * 10 + (c.toNat - Char.toNat '0')) 0

/-- Math.max applied to a spread non-empty list of naturals. -/
def listMax (l : List Nat) : Nat :=
  l.foldl max 0

/-- Graph.tsx handleCreateNode (lines 375 to 407): a blank name is
rejected with an alert and no request; otherwise the frontend generates
the id itself (1 plus the maximal parsed id of the displayed nodes, or 1
when none are displayed) and submits a NOT_REACHED node with empty edge
sets and trimmed-or-absent question and criteria.  Returns the node
passed to api.createNode, or none when no request is made. -/
def handleCreateNode (nodes : List RFNode) (d : NewNodeData) : Option Node :=
  if jsTrim d.name = "" then none
  else
    let maxId := if nodes.length > 0 then listMax (nodes.map (fun n => jsParseInt n.id)) else 0
    let newId := maxId + 1
    some { id := newId, name := d.name, status := NodeStatus.NOT_REACHED, level := d.level,
           child_nodes := [], parent_nodes := [],
           question := jsTrimOrNone d.question, criteria := jsTrimOrNone d.criteria }

/-- Graph.tsx handleEditNode (lines 410 to 438): guarded by a truthy
editingNodeId (null and 0 are falsy) and a non-blank name; merges the
freshly fetched node with the dialog fields via object spread and submits
the merge through api.createNode (the backend upserts by id).  Returns
the node submitted to the store, or none when no request is made. -/
def handleEditNode (editingNodeId : Option Nat) (d : NewNodeData) (existingNode : Node) :
    Option Node :=
  match editingNodeId with
  | none => none
  | some i =>
    if i = 0 then none
    else if jsTrim d.name = "" then none
    else some { existingNode with
                name := d.name, level := d.level,
                question := jsTrimOrNone d.question, criteria := jsTrimOrNone d.criteria }

/-- Graph.tsx onConnect: the connection parameters delivered by React
Flow; source or target can be null. -/
structure ConnParams where
  source : Option String
  target : Option String
deriving DecidableEq, Repr

/-- Lookup of a displayed node by its React Flow id string
(nodes.find(n => n.id === params.source) in onConnect). -/
def lookupRF (nodes : List RFNode) (sid : String) : Option RFNode :=
  nodes.find? (fun n => n.id == sid)

/-- Whether onConnect issues the api.createEdge request, and with which
parsed ids. -/
inductive ConnectOutcome where
  | noCall
  | call (fromId toId : Nat)
deriving DecidableEq, Repr

/-- Graph.tsx onConnect (lines 346 to 372): returns early when source or
target is falsy (null or empty) or when the source or target node it
finds among the displayed nodes is disabled; otherwise it requests
api.createEdge(parseInt(source), parseInt(target)). -/
def onConnect (nodes : List RFNode) (params : ConnParams) : ConnectOutcome :=
  match params.source, params.target with
  | some s, some t =>
    if s = "" ∨ t = "" then ConnectOutcome.noCall
    else if ((lookupRF nodes s).map (fun n => n.data.disabled)).getD false
         || ((lookupRF nodes t).map (fun n => n.data.disabled)).getD false then
      ConnectOutcome.noCall
    else ConnectOutcome.call (jsParseInt s) (jsParseInt t)
  | _, _ => ConnectOutcome.noCall

/-- Graph.tsx: a rendered React Flow edge as convertToReactFlowEdges
builds it (the constant type field smoothstep is omitted). -/
structure RFEdge where
  id : String
  source : String
  target : String
  animated : Bool
deriving DecidableEq, Repr

/-- The edge id template of convertToReactFlowEdges: the template literal
given a source-id string and a target-id string. -/
def edgeKey (s t : String) : String :=
  "e" ++ s ++ "-" ++ t

/-- One duplicate-checked insertion into the accumulated (edges, edgeSet)
pair of convertToReactFlowEdges. -/
def addEdgeIfNew (acc : List RFEdge × List String) (s t : String) (anim : Bool) :
    List RFEdge × List String :=
  let eid := edgeKey s t
  if eid ∈ acc.2 then acc
  else (acc.1 ++ [{ id := eid, source := s, target := t, animated := anim }], eid :: acc.2)

/-- The per-node body of the forEach of convertToReactFlowEdges: first
the pass over child_nodes (edges node to child), then the pass over
parent_nodes (edges parent to node), both deduplicated through the shared
edge set. -/
def processNode (acc : List RFEdge × List String) (bn : Node) : List RFEdge × List String :=
  let anim := bn.status == NodeStatus.IN_PROGRESS
  let acc1 := bn.child_nodes.foldl
    (fun a c => addEdgeIfNew a (Nat.repr bn.id) (Nat.repr c) anim) acc
  bn.parent_nodes.foldl
    (fun a p => addEdgeIfNew a (Nat.repr p) (Nat.repr bn.id) anim) acc1

/-- Graph.tsx convertToReactFlowEdges (lines 239 to 277). -/
def convertToReactFlowEdges (backendNodes : List Node) : List RFEdge :=
  (backendNodes.foldl processNode ([], [])).1

/-- Every edge must be mirrored on both ends: an id in a child set names
a node of the list whose parent set holds the owner, and symmetrically
for parent sets. -/
def Mirrored (ns : List Node) : Prop :=
  (∀ a ∈ ns, ∀ c ∈ a.child_nodes, ∃ b ∈ ns, b.id = c ∧ a.id ∈ b.parent_nodes) ∧
  (∀ b ∈ ns, ∀ p ∈ b.parent_nodes, ∃ a ∈ ns, a.id = p ∧ b.id ∈ a.child_nodes)

instance : DecidablePred Mirrored := fun ns => by
  unfold Mirrored
  infer_instance

/-- A (source, target) string pair that some node of the list accounts
for, through its child set or through its parent set. -/
def ProvPair (ns : List Node) (s t : String) : Prop :=
  (∃ a ∈ ns, ∃ c ∈ a.child_nodes, s = Nat.repr a.id ∧ t = Nat.repr c) ∨
  (∃ b ∈ ns, ∃ p ∈ b.parent_nodes, s = Nat.repr p ∧ t = Nat.repr b.id)

/-- Invariant of the convertToReactFlowEdges accumulator: each edge id is
the key of its endpoints, source strings are decimal numerals (no dash),
every edge is accounted for by some node of the list, the ids are
pairwise distinct, and the edge set holds exactly the ids of the edges
emitted so far. -/
def GoodAcc (ns : List Node) (acc : List RFEdge × List String) : Prop :=
  (∀ e ∈ acc.1,
     e.id = edgeKey e.source e.target ∧ (∀ ch ∈ e.source.data, ch ≠ '-') ∧
     ProvPair ns e.source e.target) ∧
  (acc.1.map RFEdge.id).Nodup ∧
  (∀ s, s ∈ acc.2 ↔ s ∈ acc.1.map RFEdge.id)

/-!
The GraphStore.  The backend that owns the graph is not part of the
repository snapshot (only the frontend that calls it is), so the store
and its createEdge contract are modelled from the specification, section
4.1: the store keeps a list of Nodes; createEdge(parentId, childId)
fails NotFoundError when either id is missing, ValidationError when
parentId equals childId, CycleError when childId already reaches
parentId through child edges (reachability search from childId), and
otherwise adds the edge to both mirrored sets atomically.
-/

/-- The child ids of the node with the given id (empty when the id is not
in the store). -/
def childrenOf (g : List Node) (a : Nat) : List Nat :=
  match g.find? (fun n => n.id == a) with
  | some n => n.child_nodes
  | none => []

/-- One child edge of the stored graph. -/
def Step (g : List Node) (a b : Nat) : Prop :=
  b ∈ childrenOf g a

/-- Reachability along child edges (zero or more steps). -/
def Reaches (g : List Node) : Nat → Nat → Prop :=
  Relation.ReflTransGen (Step g)

/-- The acyclicity invariant: no node reaches itself through one or more
child edges. -/
def Acyclic (g : List Node) : Prop :=
  ∀ a, ¬ Relation.TransGen (Step g) a a

/-- Bounded reachability search: can the target be reached from a in at
most fuel child-edge steps. -/
def reachN (g : List Node) : Nat → Nat → Nat → Bool
  | 0, a, tgt => a == tgt
  | fuel + 1, a, tgt => a == tgt || (childrenOf g a).any (fun b => reachN g fuel b tgt)

/-- Modelled from the spec: the cycle check of GraphStore.createEdge, a
reachability search from the candidate child following child edges.  A
walk that repeats no interior node takes at most as many steps as the
store has nodes, so the node count bounds the search. -/
def canReach (g : List Node) (a tgt : Nat) : Bool :=
  reachN g g.length a tgt

/-- Executable acyclicity check, equivalent to Acyclic (see
acyclic_iff_acyclicB). -/
def acyclicB (g : List Node) : Bool :=
  (g.map Node.id).all (fun a => !((childrenOf g a).any (fun b => canReach g b a)))

/-- The error taxonomy of the store operations the claims touch. -/
inductive GraphError where
  | notFound
  | validation
  | cycle
deriving DecidableEq, Repr

/-- The per-node update of an edge insertion: the parent gains the child
in its child set, the child gains the parent in its parent set, every
other node is untouched (the sets are kept duplicate-free, matching
their set semantics in the spec). -/
def updNode (p c : Nat) (n : Node) : Node :=
  if n.id = p then
    { n with child_nodes := if c ∈ n.child_nodes then n.child_nodes else n.child_nodes ++ [c] }
  else if n.id = c then
    { n with parent_nodes := if p ∈ n.parent_nodes then n.parent_nodes else n.parent_nodes ++ [p] }
  else n

/-- Insertion of the mirrored edge into both endpoint sets. -/
def addEdgeRaw (g : List Node) (p c : Nat) : List Node :=
  g.map (updNode p c)

/-- Modelled from the spec: GraphStore.createEdge(parentId, childId)
(spec section 4.1).  NotFoundError if either id is missing,
ValidationError if parentId equals childId, CycleError if the edge would
make childId an ancestor of parentId (reachability search from childId
runs before any mutation), otherwise both nodes are updated atomically. -/
def createEdge (g : List Node) (p c : Nat) : Except GraphError (List Node) :=
  if ¬ (g.any (fun n => n.id == p)) ∨ ¬ (g.any (fun n => n.id == c)) then
    Except.error GraphError.notFound
  else if p = c then Except.error GraphError.validation
  else if canReach g c p then Except.error GraphError.cycle
  else Except.ok (addEdgeRaw g p c)

/-- One call of a createEdge sequence: a failed call leaves the store
exactly as it was. -/
def applyCreateEdge (g : List Node) (pc : Nat × Nat) : List Node :=
  match createEdge g pc.1 pc.2 with
  | Except.ok g2 => g2
  | Except.error _ => g

/-- A sequence of createEdge calls applied to the store. -/
def runCreateEdges (g : List Node) (calls : List (Nat × Nat)) : List Node :=
  calls.foldl applyCreateEdge g

/-- A walk through child edges from a to tgt; the list records the
sources of the successive steps, so its length is the step count. -/
inductive Walk (g : List Node) : Nat → Nat → List Nat → Prop where
  | nil (a : Nat) : Walk g a a []
  | cons {a b tgt : Nat} {l : List Nat} :
      Step g a b → Walk g b tgt l → Walk g a tgt (a :: l)

/-! Sample data used by the witness theorems. -/

/-- A sample stored node. -/
def nodeSample : Node :=
  { id := 4, name := "Loops", status := NodeStatus.PASSED, level := NodeLevel.A2,
    child_nodes := [5], parent_nodes := [1], question := some "What is a loop?",
    criteria := none }

/-- A sample edit-dialog state. -/
def editSample : NewNodeData :=
  { name := "Loops II", level := NodeLevel.A1, question := " ", criteria := "rubric" }

/-- The node handleEditNode submits for nodeSample and editSample. -/
def editedSample : Node :=
  { nodeSample with
    name := "Loops II", level := NodeLevel.A1,
    question := none, criteria := some "rubric" }

/-- A sample displayed React Flow node (enabled). -/
def rfSample : RFNode :=
  { id := "7", data := { label := "Sorting", status := NodeStatus.NOT_REACHED,
                         level := NodeLevel.A1, nodeId := 7, disabled := false } }

/-- A sample displayed React Flow node that is disabled. -/
def rfDisabledSample : RFNode :=
  { id := "9", data := { label := "Graphs", status := NodeStatus.DISABLED,
                         level := NodeLevel.A1, nodeId := 9, disabled := true } }

/-- A sample create-dialog state with blank question and criteria. -/
def createSample : NewNodeData :=
  { name := "Recursion", level := NodeLevel.A1, question := "", criteria := "  " }

/-- A sample mirrored two-node store: node 1 is the parent of node 2. -/
def graphSample : List Node :=
  [{ id := 1, name := "Basics", status := NodeStatus.NOT_REACHED, level := NodeLevel.A1,
     child_nodes := [2], parent_nodes := [], question := none, criteria := none },
   { id := 2, name := "Types", status := NodeStatus.NOT_REACHED, level := NodeLevel.A1,
     child_nodes := [], parent_nodes := [1], question := none, criteria := none }]

/-- A sample createEdge call sequence: one valid call and one that would
close a cycle. -/
def callsSample : List (Nat × Nat) :=
  [(2, 1), (1, 2)]

lemma digitChar_isDigit (d : Nat) (h : d < 10) : (Nat.digitChar d).isDigit = true := by
  interval_cases d <;> decide

lemma toDigitsCore_isDigit :
    ∀ (fuel n : Nat) (ds : List Char), (∀ c ∈ ds, c.isDigit = true) →
      ∀ c ∈ Nat.toDigitsCore 10 fuel n ds, c.isDigit = true := by
  intro fuel
  induction fuel with
  | zero => intro n ds h c hc; simpa [Nat.toDigitsCore] using h c hc
  | succ f ih =>
    intro n ds h c hc
    have hds : ∀ c ∈ Nat.digitChar (n % 10) :: ds, c.isDigit = true := by
      intro c hc
      rcases List.mem_cons.mp hc with h1 | h2
      · subst h1; exact digitChar_isDigit _ (Nat.mod_lt _ (by decide))
      · exact h c h2
    simp only [Nat.toDigitsCore] at hc
    by_cases hz : n / 10 = 0
    · simp only [hz, if_true] at hc
      exact hds c hc
    · simp only [hz, if_false] at hc
      exact ih (n / 10) (Nat.digitChar (n % 10) :: ds) hds c hc

lemma repr_isDigit (n : Nat) : ∀ c ∈ (Nat.repr n).data, c.isDigit = true := by
  intro c hc
  have : (Nat.repr n).data = Nat.toDigitsCore 10 (n + 1) n [] := rfl
  rw [this] at hc
  exact toDigitsCore_isDigit (n + 1) n [] (by intro c h; cases h) c hc

lemma repr_noDash (n : Nat) : ∀ ch ∈ (Nat.repr n).data, ch ≠ '-' := by
  intro ch hch heq
  have := repr_isDigit n ch hch
  subst heq
  simp at this

lemma append_cons_dash_inj :
    ∀ (l1 : List Char) (r1 l2 r2 : List Char), (∀ c ∈ l1, c ≠ '-') → (∀ c ∈ l2, c ≠ '-') →
      l1 ++ '-' :: r1 = l2 ++ '-' :: r2 → l1 = l2 ∧ r1 = r2 := by
  intro l1
  induction l1 with
  | nil =>
    intro r1 l2 r2 _ h2 heq
    cases l2 with
    | nil => simpa using heq
    | cons b t =>
      simp only [List.nil_append, List.cons_append, List.cons.injEq] at heq
      exact absurd heq.1.symm (h2 b (List.mem_cons_self b t))
  | cons a t1 ih =>
    intro r1 l2 r2 h1 h2 heq
    cases l2 with
    | nil =>
      simp only [List.cons_append, List.nil_append, List.cons.injEq] at heq
      exact absurd heq.1 (h1 a (List.mem_cons_self a t1))
    | cons b t2 =>
      simp only [List.cons_append, List.cons.injEq] at heq
      obtain ⟨hab, htl⟩ := heq
      have h1t : ∀ c ∈ t1, c ≠ '-' := fun c hc => h1 c (List.mem_cons_of_mem _ hc)
      have h2t : ∀ c ∈ t2, c ≠ '-' := fun c hc => h2 c (List.mem_cons_of_mem _ hc)
      obtain ⟨he, hr⟩ := ih r1 t2 r2 h1t h2t htl
      exact ⟨by rw [hab, he], hr⟩

lemma edgeKey_inj {s t s2 t2 : String}
    (hs : ∀ c ∈ s.data, c ≠ '-') (hs2 : ∀ c ∈ s2.data, c ≠ '-') :
    edgeKey s t = edgeKey s2 t2 → s = s2 ∧ t = t2 := by
  intro h
  have hd : ('e' :: (s.data ++ '-' :: t.data)) = ('e' :: (s2.data ++ '-' :: t2.data)) := by
    have := congrArg String.data h
    simpa [edgeKey, String.data_append] using this
  have hd2 : s.data ++ '-' :: t.data = s2.data ++ '-' :: t2.data := (List.cons.inj hd).2
  obtain ⟨h1, h2⟩ := append_cons_dash_inj s.data t.data s2.data t2.data hs hs2 hd2
  exact ⟨String.ext h1, String.ext h2⟩

lemma addEdgeIfNew_good {ns : List Node} {acc : List RFEdge × List String} {s t : String}
    {anim : Bool} (hG : GoodAcc ns acc) (hs : ∀ c ∈ s.data, c ≠ '-')
    (hp : ProvPair ns s t) : GoodAcc ns (addEdgeIfNew acc s t anim) := by
  obtain ⟨h1, h2, h3⟩ := hG
  unfold addEdgeIfNew
  by_cases hmem : edgeKey s t ∈ acc.2
  · simp only [hmem, if_true]
    exact ⟨h1, h2, h3⟩
  · simp only [hmem, if_false]
    refine ⟨?_, ?_, ?_⟩
    · intro e he
      rcases List.mem_append.mp he with hin | hnew
      · exact h1 e hin
      · have : e = { id := edgeKey s t, source := s, target := t, animated := anim } := by
          simpa using hnew
        subst this
        exact ⟨rfl, hs, hp⟩
    · have hidnotin : edgeKey s t ∉ acc.1.map RFEdge.id := fun hin => hmem ((h3 _).mpr hin)
      simp only [List.map_append, List.nodup_append]
      refine ⟨h2, by simp, ?_⟩
      intro x hx hx2
      simp only [List.map_cons, List.map_nil, List.mem_singleton] at hx2
      subst hx2
      exact hidnotin hx
    · intro str
      simp only [List.mem_cons, List.map_append, List.mem_append, List.map_cons, List.map_nil,
        List.mem_singleton, h3 str]
      tauto

lemma addEdgeIfNew_mono {acc : List RFEdge × List String} {s t : String} {anim : Bool} :
    ∀ e ∈ acc.1, e ∈ (addEdgeIfNew acc s t anim).1 := by
  intro e he
  unfold addEdgeIfNew
  by_cases hmem : edgeKey s t ∈ acc.2
  · simpa [hmem] using he
  · simp only [hmem, if_false]
    exact List.mem_append.mpr (Or.inl he)

lemma addEdgeIfNew_present {ns : List Node} {acc : List RFEdge × List String} {s t : String}
    {anim : Bool} (hG : GoodAcc ns acc) (hs : ∀ c ∈ s.data, c ≠ '-') :
    ∃ e ∈ (addEdgeIfNew acc s t anim).1, e.source = s ∧ e.target = t := by
  obtain ⟨h1, _, h3⟩ := hG
  unfold addEdgeIfNew
  by_cases hmem : edgeKey s t ∈ acc.2
  · simp only [hmem, if_true]
    have hin : edgeKey s t ∈ acc.1.map RFEdge.id := (h3 _).mp hmem
    obtain ⟨e, he, hid⟩ := List.mem_map.mp hin
    obtain ⟨hkey, hnod, _⟩ := h1 e he
    have heq : edgeKey e.source e.target = edgeKey s t := by rw [← hkey, hid]
    obtain ⟨hse, hte⟩ := edgeKey_inj hnod hs heq
    exact ⟨e, he, hse, hte⟩
  · simp only [hmem, if_false]
    exact ⟨{ id := edgeKey s t, source := s, target := t, animated := anim },
      List.mem_append.mpr (Or.inr (by simp)), rfl, rfl⟩

lemma foldl_addEdge_good (ns : List Node) (sf tf : Nat → String) (anim : Bool) :
    ∀ (items : List Nat),
      (∀ i ∈ items, (∀ c ∈ (sf i).data, c ≠ '-') ∧ ProvPair ns (sf i) (tf i)) →
      ∀ acc, GoodAcc ns acc →
        GoodAcc ns (items.foldl (fun a i => addEdgeIfNew a (sf i) (tf i) anim) acc) ∧
        (∀ e ∈ acc.1, e ∈ (items.foldl (fun a i => addEdgeIfNew a (sf i) (tf i) anim) acc).1) ∧
        (∀ i ∈ items, ∃ e ∈ (items.foldl (fun a i => addEdgeIfNew a (sf i) (tf i) anim) acc).1,
          e.source = sf i ∧ e.target = tf i) := by
  intro items
  induction items with
  | nil =>
    intro _ acc hG
    exact ⟨hG, fun e he => he, by simp⟩
  | cons i rest ih =>
    intro hf acc hG
    have hfi := hf i (List.mem_cons_self i rest)
    have hGi : GoodAcc ns (addEdgeIfNew acc (sf i) (tf i) anim) :=
      addEdgeIfNew_good hG hfi.1 hfi.2
    have hfrest : ∀ j ∈ rest, (∀ c ∈ (sf j).data, c ≠ '-') ∧ ProvPair ns (sf j) (tf j) :=
      fun j hj => hf j (List.mem_cons_of_mem _ hj)
    obtain ⟨hG2, hmono2, hpres2⟩ := ih hfrest (addEdgeIfNew acc (sf i) (tf i) anim) hGi
    refine ⟨hG2, ?_, ?_⟩
    · intro e he
      exact hmono2 e (addEdgeIfNew_mono e he)
    · intro j hj
      rcases List.mem_cons.mp hj with hji | hjr
      · subst hji
        obtain ⟨e, he, hse, hte⟩ := addEdgeIfNew_present hG hfi.1
        exact ⟨e, hmono2 e he, hse, hte⟩
      · exact hpres2 j hjr

lemma processNode_good {ns : List Node} {bn : Node} (hbn : bn ∈ ns)
    (acc : List RFEdge × List String) (hG : GoodAcc ns acc) :
    GoodAcc ns (processNode acc bn) ∧
    (∀ e ∈ acc.1, e ∈ (processNode acc bn).1) ∧
    (∀ c ∈ bn.child_nodes, ∃ e ∈ (processNode acc bn).1,
      e.source = Nat.repr bn.id ∧ e.target = Nat.repr c) := by
  have hchild :=
    foldl_addEdge_good ns (fun _ => Nat.repr bn.id) Nat.repr
      (bn.status == NodeStatus.IN_PROGRESS) bn.child_nodes
      (fun c hc => ⟨repr_noDash bn.id, Or.inl ⟨bn, hbn, c, hc, rfl, rfl⟩⟩) acc hG
  obtain ⟨hG1, hmono1, hpres1⟩ := hchild
  have hparent :=
    foldl_addEdge_good ns Nat.repr (fun _ => Nat.repr bn.id)
      (bn.status == NodeStatus.IN_PROGRESS) bn.parent_nodes
      (fun p hp => ⟨repr_noDash p, Or.inr ⟨bn, hbn, p, hp, rfl, rfl⟩⟩) _ hG1
  obtain ⟨hG2, hmono2, _⟩ := hparent
  refine ⟨hG2, ?_, ?_⟩
  · intro e he
    exact hmono2 e (hmono1 e he)
  · intro c hc
    obtain ⟨e, he, hse, hte⟩ := hpres1 c hc
    exact ⟨e, hmono2 e he, hse, hte⟩

lemma foldl_processNode_good {ns : List Node} :
    ∀ (rem : List Node), (∀ n ∈ rem, n ∈ ns) →
      ∀ acc, GoodAcc ns acc →
        GoodAcc ns (rem.foldl processNode acc) ∧
        (∀ e ∈ acc.1, e ∈ (rem.foldl processNode acc).1) ∧
        (∀ bn ∈ rem, ∀ c ∈ bn.child_nodes, ∃ e ∈ (rem.foldl processNode acc).1,
          e.source = Nat.repr bn.id ∧ e.target = Nat.repr c) := by
  intro rem
  induction rem with
  | nil =>
    intro _ acc hG
    exact ⟨hG, fun e he => he, by simp⟩
  | cons bn rest ih =>
    intro hsub acc hG
    have hbn : bn ∈ ns := hsub bn (List.mem_cons_self bn rest)
    obtain ⟨hG1, hmono1, hpres1⟩ := processNode_good hbn acc hG
    have hrest : ∀ n ∈ rest, n ∈ ns := fun n hn => hsub n (List.mem_cons_of_mem _ hn)
    obtain ⟨hG2, hmono2, hpres2⟩ := ih hrest (processNode acc bn) hG1
    refine ⟨hG2, ?_, ?_⟩
    · intro e he
      exact hmono2 e (hmono1 e he)
    · intro b hb c hc
      rcases List.mem_cons.mp hb with hb1 | hb2
      · subst hb1
        obtain ⟨e, he, hse, hte⟩ := hpres1 c hc
        exact ⟨e, hmono2 e he, hse, hte⟩
      · exact hpres2 b hb2 c hc

lemma convertToReactFlowEdges_good (ns : List Node) :
    GoodAcc ns (ns.foldl processNode ([], [])) ∧
    (∀ bn ∈ ns, ∀ c ∈ bn.child_nodes, ∃ e ∈ convertToReactFlowEdges ns,
      e.source = Nat.repr bn.id ∧ e.target = Nat.repr c) := by
  have h0 : GoodAcc ns (([], []) : List RFEdge × List String) := by
    refine ⟨by simp, by simp, by simp⟩
  obtain ⟨hG, _, hpres⟩ := foldl_processNode_good ns (fun n hn => hn) ([], []) h0
  exact ⟨hG, hpres⟩

lemma nodup_map_inj {α β : Type _} {f : α → β} :
    ∀ {l : List α}, (l.map f).Nodup → ∀ a ∈ l, ∀ b ∈ l, f a = f b → a = b := by
  intro l
  induction l with
  | nil => intro _ a ha; cases ha
  | cons x xs ih =>
    intro hnd a ha b hb hfab
    simp only [List.map_cons, List.nodup_cons] at hnd
    obtain ⟨hxnot, hnd2⟩ := hnd
    rcases List.mem_cons.mp ha with rfl | ha2 <;> rcases List.mem_cons.mp hb with rfl | hb2
    · rfl
    · exact absurd (List.mem_map.mpr ⟨b, hb2, hfab.symm⟩) hxnot
    · exact absurd (List.mem_map.mpr ⟨a, ha2, hfab⟩) hxnot
    · exact ih hnd2 a ha2 b hb2 hfab

lemma eq_singleton_of_all_eq {α : Type _} :
    ∀ {l : List α} {e : α}, l.Nodup → e ∈ l → (∀ x ∈ l, x = e) → l = [e] := by
  intro l
  induction l with
  | nil => intro e _ he; cases he
  | cons x xs ih =>
    intro e hnd he hall
    have hx : x = e := hall x (List.mem_cons_self x xs)
    subst hx
    simp only [List.nodup_cons] at hnd
    cases xs with
    | nil => rfl
    | cons y ys =>
      have hy : y = x := hall y (List.mem_cons_of_mem _ (List.mem_cons_self y ys))
      exact absurd (hy ▸ List.mem_cons_self y ys) hnd.1

lemma countP_eq_one_of {α : Type _} (l : List α) (pred : α → Bool) (hnd : l.Nodup) (e : α)
    (he : e ∈ l) (hpe : pred e = true) (huniq : ∀ x ∈ l, pred x = true → x = e) :
    l.countP pred = 1 := by
  rw [List.countP_eq_length_filter]
  have : l.filter pred = [e] := by
    refine eq_singleton_of_all_eq (List.Nodup.filter pred hnd) ?_ ?_
    · exact List.mem_filter.mpr ⟨he, hpe⟩
    · intro x hx
      obtain ⟨hxl, hxp⟩ := List.mem_filter.mp hx
      exact huniq x hxl hxp
  rw [this]
  rfl

lemma reachN_sound {g : List Node} :
    ∀ (fuel a tgt : Nat), reachN g fuel a tgt = true → Reaches g a tgt := by
  intro fuel
  induction fuel with
  | zero =>
    intro a tgt h
    simp only [reachN, beq_iff_eq] at h
    subst h
    exact Relation.ReflTransGen.refl
  | succ f ih =>
    intro a tgt h
    simp only [reachN, Bool.or_eq_true, beq_iff_eq, List.any_eq_true] at h
    rcases h with rfl | ⟨b, hb, hr⟩
    · exact Relation.ReflTransGen.refl
    · exact Relation.ReflTransGen.head hb (ih b tgt hr)

lemma reachN_mono {g : List Node} :
    ∀ {f1 f2 a tgt : Nat}, f1 ≤ f2 → reachN g f1 a tgt = true → reachN g f2 a tgt = true := by
  intro f1
  induction f1 with
  | zero =>
    intro f2 a tgt _ h
    simp only [reachN, beq_iff_eq] at h
    subst h
    cases f2 <;> simp [reachN]
  | succ f ih =>
    intro f2 a tgt hle h
    cases f2 with
    | zero => omega
    | succ f2p =>
      simp only [reachN, Bool.or_eq_true, beq_iff_eq, List.any_eq_true] at h ⊢
      rcases h with rfl | ⟨b, hb, hr⟩
      · exact Or.inl rfl
      · exact Or.inr ⟨b, hb, ih (Nat.le_of_succ_le_succ hle) hr⟩

lemma walk_of_reaches {g : List Node} {a tgt : Nat} (h : Reaches g a tgt) :
    ∃ l, Walk g a tgt l := by
  induction h using Relation.ReflTransGen.head_induction_on with
  | refl => exact ⟨[], Walk.nil tgt⟩
  | head hstep _ ih =>
    obtain ⟨l, hw⟩ := ih
    exact ⟨_ :: l, Walk.cons hstep hw⟩

lemma reachN_of_walk {g : List Node} {a tgt : Nat} {l : List Nat} (h : Walk g a tgt l) :
    reachN g l.length a tgt = true := by
  induction h with
  | nil a => simp [reachN]
  | cons hstep _ ih =>
    simp only [List.length_cons, reachN, Bool.or_eq_true, beq_iff_eq, List.any_eq_true]
    exact Or.inr ⟨_, hstep, ih⟩

lemma walk_mem_ids {g : List Node} {a tgt : Nat} {l : List Nat} (h : Walk g a tgt l) :
    ∀ x ∈ l, x ∈ g.map Node.id := by
  induction h with
  | nil a => intro x hx; cases hx
  | cons hstep _ ih =>
    intro x hx
    rcases List.mem_cons.mp hx with rfl | hx2
    · unfold Step childrenOf at hstep
      rcases hfind : List.find? (fun n => n.id == x) g with _ | n
      · rw [hfind] at hstep; cases hstep
      · have hnx : n.id = x := by
          have := List.find?_some hfind
          simpa using this
        exact List.mem_map.mpr ⟨n, List.mem_of_find?_eq_some hfind, hnx⟩
    · exact ih x hx2

lemma walk_append_split {g : List Node} :
    ∀ (l1 : List Nat) {l2 : List Nat} {a tgt : Nat}, Walk g a tgt (l1 ++ l2) →
      ∃ m, Walk g a m l1 ∧ Walk g m tgt l2 := by
  intro l1
  induction l1 with
  | nil =>
    intro l2 a tgt h
    exact ⟨a, Walk.nil a, h⟩
  | cons x rest ih =>
    intro l2 a tgt h
    cases h with
    | cons hstep htail =>
      obtain ⟨m, hm1, hm2⟩ := ih htail
      exact ⟨m, Walk.cons hstep hm1, hm2⟩

lemma walk_compose {g : List Node} {m tgt : Nat} {l2 : List Nat} (h2 : Walk g m tgt l2) :
    ∀ {a : Nat} {l1 : List Nat}, Walk g a m l1 → Walk g a tgt (l1 ++ l2) := by
  intro a l1 h1
  induction h1 with
  | nil b => simpa using h2
  | cons hstep _ ih => exact Walk.cons hstep (ih h2)

lemma exists_dup_split {α : Type _} :
    ∀ {l : List α}, ¬ l.Nodup → ∃ x l1 l2 l3, l = l1 ++ x :: l2 ++ x :: l3 := by
  intro l
  induction l with
  | nil => intro h; exact absurd List.nodup_nil h
  | cons a t ih =>
    intro h
    rw [List.nodup_cons] at h
    by_cases hmem : a ∈ t
    · obtain ⟨s, u, rfl⟩ := List.append_of_mem hmem
      exact ⟨a, [], s, u, by simp⟩
    · have hnd : ¬ t.Nodup := fun htnd => h ⟨hmem, htnd⟩
      obtain ⟨x, l1, l2, l3, rfl⟩ := ih hnd
      exact ⟨x, a :: l1, l2, l3, by simp⟩

lemma walk_cut {g : List Node} {a tgt x : Nat} {l1 l2 l3 : List Nat}
    (hw : Walk g a tgt (l1 ++ (x :: (l2 ++ (x :: l3))))) :
    Walk g a tgt (l1 ++ (x :: l3)) := by
  obtain ⟨m1, hw1, hw2⟩ := walk_append_split l1 hw
  cases hw2 with
  | cons hstep htail =>
    obtain ⟨m2, hw3, hw4⟩ := walk_append_split l2 htail
    cases hw4 with
    | cons hstep2 htail2 =>
      exact walk_compose (Walk.cons hstep2 htail2) hw1

lemma walk_shorten {g : List Node} {a tgt : Nat} :
    ∀ (n : Nat) (l : List Nat), l.length ≤ n → Walk g a tgt l →
      ∃ l2, l2.Nodup ∧ Walk g a tgt l2 := by
  intro n
  induction n with
  | zero =>
    intro l hlen hw
    have : l = [] := List.length_eq_zero.mp (Nat.le_zero.mp hlen)
    subst this
    exact ⟨[], List.nodup_nil, hw⟩
  | succ n ih =>
    intro l hlen hw
    by_cases hnd : l.Nodup
    · exact ⟨l, hnd, hw⟩
    · obtain ⟨x, l1, l2, l3, heq⟩ := exists_dup_split hnd
      have heq2 : l = l1 ++ (x :: (l2 ++ (x :: l3))) := by
        rw [heq]; simp
      subst heq2
      have hshort : Walk g a tgt (l1 ++ (x :: l3)) := walk_cut hw
      have hlen2 : (l1 ++ (x :: l3)).length ≤ n := by
        simp only [List.length_append, List.length_cons] at hlen ⊢
        omega
      exact ih (l1 ++ (x :: l3)) hlen2 hshort

lemma nodup_walk_length {g : List Node} {a tgt : Nat} {l : List Nat}
    (hw : Walk g a tgt l) (hnd : l.Nodup) : l.length ≤ g.length := by
  have hsub : l.toFinset ⊆ (g.map Node.id).toFinset := by
    intro x hx
    exact List.mem_toFinset.mpr (walk_mem_ids hw x (List.mem_toFinset.mp hx))
  have h1 : l.toFinset.card = l.length := List.toFinset_card_of_nodup hnd
  have h2 : (g.map Node.id).toFinset.card ≤ (g.map Node.id).length :=
    List.toFinset_card_le _
  have h3 : l.toFinset.card ≤ (g.map Node.id).toFinset.card := Finset.card_le_card hsub
  rw [List.length_map] at h2
  omega

lemma reaches_canReach {g : List Node} {a tgt : Nat} (h : Reaches g a tgt) :
    canReach g a tgt = true := by
  obtain ⟨l, hw⟩ := walk_of_reaches h
  obtain ⟨l2, hnd, hw2⟩ := walk_shorten l.length l (Nat.le_refl _) hw
  have hlen : l2.length ≤ g.length := nodup_walk_length hw2 hnd
  exact reachN_mono hlen (reachN_of_walk hw2)

lemma canReach_reaches {g : List Node} {a tgt : Nat} (h : canReach g a tgt = true) :
    Reaches g a tgt :=
  reachN_sound g.length a tgt h

lemma updNode_id (p c : Nat) (n : Node) : (updNode p c n).id = n.id := by
  unfold updNode
  split
  · rfl
  · split <;> rfl

lemma updNode_child (p c : Nat) (n : Node) :
    (updNode p c n).child_nodes =
      if n.id = p then (if c ∈ n.child_nodes then n.child_nodes else n.child_nodes ++ [c])
      else n.child_nodes := by
  unfold updNode
  split
  · rfl
  · split <;> simp

lemma childrenOf_cons_pos {n : Node} {t : List Node} {x : Nat} (hx : n.id = x) :
    childrenOf (n :: t) x = n.child_nodes := by
  unfold childrenOf
  rw [List.find?_cons_of_pos _ (by simp [hx])]

lemma childrenOf_cons_neg {n : Node} {t : List Node} {x : Nat} (hx : n.id ≠ x) :
    childrenOf (n :: t) x = childrenOf t x := by
  unfold childrenOf
  rw [List.find?_cons_of_neg _ (by simp [hx])]

lemma childrenOf_addEdgeRaw_sub {p c : Nat} :
    ∀ (g : List Node) (x y : Nat), y ∈ childrenOf (addEdgeRaw g p c) x →
      y ∈ childrenOf g x ∨ (x = p ∧ y = c) := by
  intro g
  induction g with
  | nil => intro x y h; simp [addEdgeRaw, childrenOf] at h
  | cons n t ih =>
    intro x y h
    have hcons : addEdgeRaw (n :: t) p c = updNode p c n :: addEdgeRaw t p c := rfl
    rw [hcons] at h
    by_cases hx : n.id = x
    · rw [childrenOf_cons_pos (by rw [updNode_id, hx])] at h
      rw [childrenOf_cons_pos hx]
      rw [updNode_child] at h
      by_cases hp : n.id = p
      · rw [if_pos hp] at h
        by_cases hc : c ∈ n.child_nodes
        · rw [if_pos hc] at h
          exact Or.inl h
        · rw [if_neg hc] at h
          rcases List.mem_append.mp h with h1 | h2
          · exact Or.inl h1
          · exact Or.inr ⟨by rw [← hx, hp], by simpa using h2⟩
      · rw [if_neg hp] at h
        exact Or.inl h
    · rw [childrenOf_cons_neg (by rw [updNode_id]; exact hx)] at h
      rw [childrenOf_cons_neg hx]
      exact ih x y h

lemma step_addEdgeRaw_sub {g : List Node} {p c x y : Nat}
    (h : Step (addEdgeRaw g p c) x y) : Step g x y ∨ (x = p ∧ y = c) :=
  childrenOf_addEdgeRaw_sub g x y h

lemma rtg_avoid {α : Type _} {r r2 : α → α → Prop} {p c : α}
    (hsub : ∀ x y, r2 x y → r x y ∨ (x = p ∧ y = c))
    (hnc : ¬ Relation.ReflTransGen r c p) :
    ∀ {a b : α}, Relation.ReflTransGen r2 a b →
      Relation.ReflTransGen r a b ∨
        (Relation.ReflTransGen r a p ∧ Relation.ReflTransGen r c b) := by
  intro a b hab
  induction hab using Relation.ReflTransGen.head_induction_on with
  | refl => exact Or.inl Relation.ReflTransGen.refl
  | head hstep _ ih =>
    rcases hsub _ _ hstep with hr | ⟨rfl, rfl⟩
    · rcases ih with h1 | ⟨h2, h3⟩
      · exact Or.inl (Relation.ReflTransGen.head hr h1)
      · exact Or.inr ⟨Relation.ReflTransGen.head hr h2, h3⟩
    · rcases ih with h1 | ⟨h2, h3⟩
      · exact Or.inr ⟨Relation.ReflTransGen.refl, h1⟩
      · exact absurd h2 hnc

lemma acyclic_addEdgeRaw {g : List Node} {p c : Nat} (hA : Acyclic g)
    (hnr : ¬ Reaches g c p) : Acyclic (addEdgeRaw g p c) := by
  intro a hcyc
  obtain ⟨b, hab, hba⟩ := Relation.TransGen.head'_iff.mp hcyc
  rcases step_addEdgeRaw_sub hab with hr | ⟨rfl, rfl⟩
  · rcases rtg_avoid (fun x y h => step_addEdgeRaw_sub h) hnr hba with h1 | ⟨h2, h3⟩
    · exact hA a (Relation.TransGen.head' hr h1)
    · exact hnr (Relation.ReflTransGen.trans h3 (Relation.ReflTransGen.head hr h2))
  · rcases rtg_avoid (fun x y h => step_addEdgeRaw_sub h) hnr hba with h1 | ⟨h2, _⟩
    · exact hnr h1
    · exact hnr h2

lemma acyclic_applyCreateEdge {g : List Node} (hA : Acyclic g) (pc : Nat × Nat) :
    Acyclic (applyCreateEdge g pc) := by
  unfold applyCreateEdge
  rcases hce : createEdge g pc.1 pc.2 with e | g2
  · exact hA
  · unfold createEdge at hce
    by_cases h1 : ¬ (g.any (fun n => n.id == pc.1)) ∨ ¬ (g.any (fun n => n.id == pc.2))
    · rw [if_pos h1] at hce; cases hce
    · rw [if_neg h1] at hce
      by_cases h2 : pc.1 = pc.2
      · rw [if_pos h2] at hce; cases hce
      · rw [if_neg h2] at hce
        by_cases h3 : canReach g pc.2 pc.1 = true
        · rw [if_pos h3] at hce; cases hce
        · rw [if_neg h3] at hce
          have hnr : ¬ Reaches g pc.2 pc.1 := fun hr => h3 (reaches_canReach hr)
          cases hce
          exact acyclic_addEdgeRaw hA hnr

lemma acyclic_runCreateEdges {g : List Node} (hA : Acyclic g) :
    ∀ calls : List (Nat × Nat), Acyclic (runCreateEdges g calls) := by
  intro calls
  induction calls generalizing g with
  | nil => exact hA
  | cons pc rest ih => exact ih (acyclic_applyCreateEdge hA pc)

lemma acyclic_iff_acyclicB (g : List Node) : Acyclic g ↔ acyclicB g = true := by
  constructor
  · intro hA
    unfold acyclicB
    rw [List.all_eq_true]
    intro a _
    rw [Bool.not_eq_true']
    by_contra hany
    rw [Bool.not_eq_false, List.any_eq_true] at hany
    obtain ⟨b, hb, hcr⟩ := hany
    exact hA a (Relation.TransGen.head' hb (canReach_reaches hcr))
  · intro hB a hcyc
    obtain ⟨b, hab, hba⟩ := Relation.TransGen.head'_iff.mp hcyc
    have hmem : a ∈ g.map Node.id := by
      unfold Step childrenOf at hab
      rcases hfind : List.find? (fun n => n.id == a) g with _ | n
      · rw [hfind] at hab; cases hab
      · have hna : n.id = a := by
          have := List.find?_some hfind
          simpa using this
        exact List.mem_map.mpr ⟨n, List.mem_of_find?_eq_some hfind, hna⟩
    unfold acyclicB at hB
    rw [List.all_eq_true] at hB
    have := hB a hmem
    rw [Bool.not_eq_true', Bool.eq_false_iff] at this
    exact this (List.any_eq_true.mpr ⟨b, hab, reaches_canReach hba⟩)

lemma convert_edges_props (ns : List Node) :
    ∀ e ∈ convertToReactFlowEdges ns,
      e.id = edgeKey e.source e.target ∧ (∀ ch ∈ e.source.data, ch ≠ '-') ∧
      ProvPair ns e.source e.target :=
  (convertToReactFlowEdges_good ns).1.1

lemma convert_edges_nodup (ns : List Node) :
    ((convertToReactFlowEdges ns).map RFEdge.id).Nodup :=
  (convertToReactFlowEdges_good ns).1.2.1

lemma convert_edges_unique (ns : List Node) :
    ∀ e1 ∈ convertToReactFlowEdges ns, ∀ e2 ∈ convertToReactFlowEdges ns,
      e1.source = e2.source → e1.target = e2.target → e1 = e2 := by
  intro e1 h1 e2 h2 hs ht
  have p1 := (convert_edges_props ns e1 h1).1
  have p2 := (convert_edges_props ns e2 h2).1
  apply nodup_map_inj (convert_edges_nodup ns) e1 h1 e2 h2
  rw [p1, p2, hs, ht]

lemma convert_edges_present (ns : List Node) :
    ∀ bn ∈ ns, ∀ c ∈ bn.child_nodes, ∃ e ∈ convertToReactFlowEdges ns,
      e.source = Nat.repr bn.id ∧ e.target = Nat.repr c :=
  (convertToReactFlowEdges_good ns).2

/-- C1 (counterexample): the Node interface of types.ts, the node
representation the frontend exchanges over the boundary, declares no
score field at all, refuting the claim that the boundary node record may
carry an optional numeric score. -/
theorem node_interface_no_score_cex :
    "score" ∉ nodeInterfaceFields.map Prod.fst := by decide

/-- C1 (amended): the boundary node record carries exactly id, name,
status, level, child_nodes, parent_nodes and the optional question and
criteria; it has no score field. -/
theorem node_interface_fields_spec :
    nodeInterfaceFields.map Prod.fst =
      ["id", "name", "status", "level", "child_nodes", "parent_nodes",
       "question", "criteria"] ∧
    "score" ∉ nodeInterfaceFields.map Prod.fst ∧
    ("question", false) ∈ nodeInterfaceFields ∧
    ("criteria", false) ∈ nodeInterfaceFields := by decide

/-- C2 (counterexample): a question-less completion response (completed
true, no question) is not a valid outcome for the caller: Chat.tsx
handleSend takes its throw-branch on it.  Moreover the declared
sendAnswer result type does not make question optional and has no score
field. -/
theorem sendAnswer_questionless_completion_cex :
    handleSend (some { question := none, session_id := none, completed := some true }) =
      SendOutcome.errorOut ∧
    ("question", false) ∉ sendAnswerResultFields ∧
    "score" ∉ sendAnswerResultFields.map Prod.fst := by decide

/-- C2 (amended): the answerSession result declares question required
and completed optional and carries no score; the caller treats every
response whose question is absent or empty as an error (Invalid response
from server), so a completion is only accepted alongside a question, in
which case completed = true deactivates the interview. -/
theorem sendAnswer_question_required_spec :
    (∀ r : SendAnswerResponse, handleSend (some r) = SendOutcome.errorOut ↔
      (r.question = none ∨ r.question = some "")) ∧
    (∀ (r : SendAnswerResponse) (q : String), r.question = some q → q ≠ "" →
      r.completed = some true →
      ∃ sid, handleSend (some r) = SendOutcome.shown q false sid) ∧
    ("score" ∉ sendAnswerResultFields.map Prod.fst) ∧
    (("question", true) ∈ sendAnswerResultFields) := by
  refine ⟨?_, ?_, by decide, by decide⟩
  · intro r
    constructor
    · intro h
      cases hq : r.question with
      | none => exact Or.inl rfl
      | some q =>
        by_cases hqe : q = ""
        · exact Or.inr (by rw [hqe])
        · simp [handleSend, hq, hqe] at h
    · intro h
      rcases h with hq | hq <;> simp [handleSend, hq]
  · intro r q hq hqe hc
    refine ⟨(match r.session_id with
             | some sid => if sid = "" then none else some sid
             | none => none), ?_⟩
    simp [handleSend, hq, hqe, hc]

/-- C3 (counterexample): a startChat response without a session_id is
well-typed (the declared result type marks session_id optional) and the
caller proceeds with no stored session id, refuting that the result
always contains a session_id. -/
theorem startChat_session_id_optional_cex :
    handleStart (some NodeLevel.A1)
        { question := "What is a variable?", session_id := none } =
      StartOutcome.started none "What is a variable?" ∧
    ("session_id", true) ∉ startChatResultFields := by decide

/-- C3 (amended): startSession takes the chosen level (the frontend only
calls startChat once a level is selected) and its result always contains
the first question, while session_id is optional: the caller stores it
only when present. -/
theorem startChat_level_and_optional_session_spec :
    (∀ r : StartChatResponse, handleStart none r = StartOutcome.needLevel) ∧
    (∀ (lv : NodeLevel) (r : StartChatResponse),
      ∃ sid, handleStart (some lv) r = StartOutcome.started sid r.question ∧
        (r.session_id = none → sid = none)) ∧
    (("question", true) ∈ startChatResultFields) ∧
    (("session_id", false) ∈ startChatResultFields) := by
  refine ⟨fun r => rfl, ?_, by decide, by decide⟩
  intro lv r
  cases hr : r.session_id with
  | none => exact ⟨none, by simp [handleStart, hr], fun _ => rfl⟩
  | some s =>
    refine ⟨if s = "" then none else some s, by simp [handleStart, hr], ?_⟩
    intro hnone
    cases hnone

/-- C4: on a node list whose edges are mirrored on both ends,
convertToReactFlowEdges renders exactly one edge for every directed
(parent, child) pair recorded in the child sets, and every rendered edge
comes from such a pair: the second pass over parent_nodes adds no edge
beyond those derived from child_nodes. -/
theorem convertToReactFlowEdges_mirrored_unique (ns : List Node) (h : Mirrored ns) :
    (∀ a ∈ ns, ∀ c ∈ a.child_nodes,
      (convertToReactFlowEdges ns).countP
        (fun e => e.source == Nat.repr a.id && e.target == Nat.repr c) = 1) ∧
    (∀ e ∈ convertToReactFlowEdges ns, ∃ a ∈ ns, ∃ c ∈ a.child_nodes,
      e.source = Nat.repr a.id ∧ e.target = Nat.repr c) := by
  constructor
  · intro a ha c hc
    obtain ⟨e0, he0, hs0, ht0⟩ := convert_edges_present ns a ha c hc
    refine countP_eq_one_of _ _ (List.Nodup.of_map _ (convert_edges_nodup ns)) e0 he0 ?_ ?_
    · simp [hs0, ht0]
    · intro x hx hpx
      simp only [Bool.and_eq_true, beq_iff_eq] at hpx
      exact convert_edges_unique ns x hx e0 he0 (by rw [hpx.1, hs0]) (by rw [hpx.2, ht0])
  · intro e he
    rcases (convert_edges_props ns e he).2.2 with ⟨a, ha, c, hc, hs, ht⟩ | ⟨b, hb, p, hp, hs, ht⟩
    · exact ⟨a, ha, c, hc, hs, ht⟩
    · obtain ⟨a2, ha2, hid, hmem⟩ := h.2 b hb p hp
      exact ⟨a2, ha2, b.id, hmem, by rw [hs, hid], ht⟩

/-- C4 (witness): the conclusion instantiated on the mirrored two-node
sample graph. -/
theorem convertToReactFlowEdges_mirrored_unique_witness :
    (∀ a ∈ graphSample, ∀ c ∈ a.child_nodes,
      (convertToReactFlowEdges graphSample).countP
        (fun e => e.source == Nat.repr a.id && e.target == Nat.repr c) = 1) ∧
    (∀ e ∈ convertToReactFlowEdges graphSample, ∃ a ∈ graphSample, ∃ c ∈ a.child_nodes,
      e.source = Nat.repr a.id ∧ e.target = Nat.repr c) :=
  convertToReactFlowEdges_mirrored_unique graphSample (by decide)

/-- C5: an edit submits to the store a node that agrees with the freshly
fetched node on id, status, child_nodes and parent_nodes; only name,
level, question and criteria can differ. -/
theorem handleEditNode_frame (editingNodeId : Option Nat) (d : NewNodeData)
    (existingNode out : Node)
    (h : handleEditNode editingNodeId d existingNode = some out) :
    out.id = existingNode.id ∧ out.status = existingNode.status ∧
    out.child_nodes = existingNode.child_nodes ∧
    out.parent_nodes = existingNode.parent_nodes := by
  cases editingNodeId with
  | none => cases h
  | some i =>
    unfold handleEditNode at h
    simp only [] at h
    by_cases hi : i = 0
    · rw [if_pos hi] at h
      cases h
    · rw [if_neg hi] at h
      by_cases hn : jsTrim d.name = ""
      · rw [if_pos hn] at h
        cases h
      · rw [if_neg hn] at h
        injection h with h2
        subst h2
        exact ⟨rfl, rfl, rfl, rfl⟩

/-- C5 (witness): the frame conditions hold on the sample edit. -/
theorem handleEditNode_frame_witness :
    editedSample.id = nodeSample.id ∧ editedSample.status = nodeSample.status ∧
    editedSample.child_nodes = nodeSample.child_nodes ∧
    editedSample.parent_nodes = nodeSample.parent_nodes :=
  handleEditNode_frame (some 4) editSample nodeSample editedSample (by decide)

/-- C6: node creation validates its input: a blank (empty or whitespace
only) name means no node is submitted at all, and a submitted node always
has a non-empty name and a level among A1, A2, A3. -/
theorem handleCreateNode_validates (nodes : List RFNode) (d : NewNodeData) :
    (jsTrim d.name = "" → handleCreateNode nodes d = none) ∧
    (∀ bn : Node, handleCreateNode nodes d = some bn →
      bn.name ≠ "" ∧ bn.level ∈ [NodeLevel.A1, NodeLevel.A2, NodeLevel.A3]) := by
  constructor
  · intro hblank
    simp [handleCreateNode, hblank]
  · intro bn h
    by_cases hblank : jsTrim d.name = ""
    · unfold handleCreateNode at h
      rw [if_pos hblank] at h
      cases h
    · unfold handleCreateNode at h
      rw [if_neg hblank] at h
      injection h with h2
      subst h2
      refine ⟨?_, by cases d.level <;> simp⟩
      intro hempty
      have hdn : d.name = "" := hempty
      rw [hdn] at hblank
      exact hblank (by decide)

/-- C7: for every sequence of createEdge calls on an acyclic store, the
graph is acyclic after each call, and a failing call leaves the store
exactly as it was (no partial mutation). -/
theorem createEdge_acyclic_invariant (g : List Node) (calls : List (Nat × Nat))
    (hA : Acyclic g) :
    Acyclic (runCreateEdges g calls) ∧
    (∀ p c e, createEdge g p c = Except.error e → applyCreateEdge g (p, c) = g) := by
  refine ⟨acyclic_runCreateEdges hA calls, ?_⟩
  intro p c e he
  unfold applyCreateEdge
  rw [he]

/-- C7 (witness): the invariant instantiated on the sample store and a
call sequence containing one rejected (cycle-closing) call. -/
theorem createEdge_acyclic_invariant_witness :
    Acyclic (runCreateEdges graphSample callsSample) ∧
    (∀ p c e, createEdge graphSample p c = Except.error e →
      applyCreateEdge graphSample (p, c) = graphSample) :=
  createEdge_acyclic_invariant graphSample callsSample
    ((acyclic_iff_acyclicB graphSample).mpr (by decide))

/-- C8: submitting the create dialog with a non-blank name sends a node
whose id the frontend generates itself as 1 plus the maximal displayed
node id (1 when nothing is displayed), with status NOT_REACHED, empty
child and parent sets, and blank question and criteria sent as absent
rather than as empty strings. -/
theorem handleCreateNode_defaults (nodes : List RFNode) (d : NewNodeData)
    (hids : ∀ rf ∈ nodes, jsParseInt rf.id = rf.data.nodeId)
    (hname : jsTrim d.name ≠ "") :
    ∃ bn, handleCreateNode nodes d = some bn ∧
      bn.id = listMax (nodes.map (fun rf => rf.data.nodeId)) + 1 ∧
      bn.status = NodeStatus.NOT_REACHED ∧ bn.child_nodes = [] ∧ bn.parent_nodes = [] ∧
      (jsTrim d.question = "" → bn.question = none) ∧
      (jsTrim d.criteria = "" → bn.criteria = none) := by
  unfold handleCreateNode
  rw [if_neg hname]
  have hmap : nodes.map (fun n => jsParseInt n.id) = nodes.map (fun rf => rf.data.nodeId) :=
    List.map_congr_left (fun rf hrf => hids rf hrf)
  refine ⟨_, rfl, ?_, rfl, rfl, rfl, ?_, ?_⟩
  · show (if nodes.length > 0 then listMax (nodes.map (fun n => jsParseInt n.id)) else 0) + 1 =
      listMax (nodes.map (fun rf => rf.data.nodeId)) + 1
    cases nodes with
    | nil => rfl
    | cons n t => rw [if_pos (by simp), hmap]
  · intro hq
    show jsTrimOrNone d.question = none
    simp [jsTrimOrNone, hq]
  · intro hc
    show jsTrimOrNone d.criteria = none
    simp [jsTrimOrNone, hc]

/-- C8 (witness): the defaults on a one-node display and a dialog with
blank question and criteria. -/
theorem handleCreateNode_defaults_witness :
    ∃ bn, handleCreateNode [rfSample] createSample = some bn ∧
      bn.id = listMax ([rfSample].map (fun rf => rf.data.nodeId)) + 1 ∧
      bn.status = NodeStatus.NOT_REACHED ∧ bn.child_nodes = [] ∧ bn.parent_nodes = [] ∧
      (jsTrim createSample.question = "" → bn.question = none) ∧
      (jsTrim createSample.criteria = "" → bn.criteria = none) :=
  handleCreateNode_defaults [rfSample] createSample (by decide) (by decide)

/-- C9: for every input node list, mirrored or not, the rendered edge
list has pairwise distinct edge ids and at most one edge per ordered
(source, target) pair. -/
theorem convertToReactFlowEdges_distinct_ids (ns : List Node) :
    ((convertToReactFlowEdges ns).map RFEdge.id).Nodup ∧
    ∀ e1 ∈ convertToReactFlowEdges ns, ∀ e2 ∈ convertToReactFlowEdges ns,
      e1.source = e2.source → e1.target = e2.target → e1 = e2 :=
  ⟨convert_edges_nodup ns, convert_edges_unique ns⟩

/-- C10: a connection attempt whose source or target id is missing
(falsy), or whose source or target resolves to a disabled displayed
node, never issues the createEdge request. -/
theorem onConnect_disabled_guard (nodes : List RFNode) (params : ConnParams)
    (h : params.source = none ∨ params.source = some "" ∨ params.target = none ∨
         params.target = some "" ∨
         (∃ s n, params.source = some s ∧ lookupRF nodes s = some n ∧ n.data.disabled = true) ∨
         (∃ t n, params.target = some t ∧ lookupRF nodes t = some n ∧ n.data.disabled = true)) :
    onConnect nodes params = ConnectOutcome.noCall := by
  obtain ⟨os, ot⟩ := params
  rcases h with h1 | h1 | h1 | h1 | ⟨s, n, hs, hl, hd⟩ | ⟨t, n, ht, hl, hd⟩
  · simp only at h1
    subst h1
    rfl
  · simp only at h1
    subst h1
    cases ot with
    | none => rfl
    | some t => simp [onConnect]
  · simp only at h1
    subst h1
    cases os <;> rfl
  · simp only at h1
    subst h1
    cases os with
    | none => rfl
    | some s => simp [onConnect]
  · simp only at hs
    subst hs
    cases ot with
    | none => rfl
    | some t =>
      by_cases hse : s = "" ∨ t = ""
      · simp [onConnect, hse]
      · simp [onConnect, hse, hl, hd]
  · simp only at ht
    subst ht
    cases os with
    | none => rfl
    | some s =>
      by_cases hse : s = "" ∨ t = ""
      · simp [onConnect, hse]
      · simp [onConnect, hse, hl, hd]

/-- C10 (witness): connecting from a disabled displayed node issues no
request. -/
theorem onConnect_disabled_guard_witness :
    onConnect [rfDisabledSample] { source := some "9", target := some "7" } =
      ConnectOutcome.noCall :=
  onConnect_disabled_guard [rfDisabledSample] { source := some "9", target := some "7" }
    (Or.inr (Or.inr (Or.inr (Or.inr (Or.inl ⟨"9", rfDisabledSample, rfl, rfl, rfl⟩)))))
